import Mathlib

/-!
Verification of the konaste_downloader synchronization engine against its
design description.  The Rust sources are shallowly embedded: the data model
of src/resources.rs, the error enumeration of src/error.rs, and the
orchestration and fetch logic of src/lib.rs become executable Lean
definitions.  External collaborators (the HTTP client, the filesystem, the
SHA-256 digest, the kbinxml and quick_xml codecs) are modelled as explicit
environments of functions, and the scheduling nondeterminism of the tokio
select races is modelled by oracle functions supplied to the run model.
-/

namespace Konaste

/-- One manifest entry, embedding struct FileResource of src/resources.rs.
The Rust fields path, version (i32), size (i32), sum, url keep their names;
the two i32 fields are embedded as Int. -/
structure FileResource where
  path : String
  version : Int
  size : Int
  sum : String
  url : String
deriving DecidableEq, Repr

/-- The decoded manifest, embedding struct ResourceInfo of src/resources.rs. -/
structure ResourceInfo where
  files : List FileResource
deriving DecidableEq, Repr

/-- Outcome reported per file, embedding enum Status of src/reporter.rs. -/
inductive Status where
  | Downloaded : Status
  | Skipped : Status
  | Cancelled : Status
deriving DecidableEq, Repr

/-- Run-level error, embedding enum Error of src/error.rs.  The payloads of
the wrapped foreign error types are collapsed to strings. -/
inductive Error where
  | ConvertResourceInfo (msg : String) : Error
  | ParseResourceInfo (msg : String) : Error
  | InternalError (msg : String) : Error
  | Reqwest (msg : String) : Error
  | Io (msg : String) : Error
deriving DecidableEq, Repr

/-- Embeds the retain call of run_inner in src/lib.rs, which keeps exactly
the entries whose url is not the empty string; Rust String.is_empty is
equality with the empty string. -/
def retainNonEmptyUrl (files : List FileResource) : List FileResource :=
  files.filter (fun file => !(file.url == ""))

/-- Embeds the Rust cast `size as usize` on a 64-bit target: the i32 value is
reinterpreted modulo 2 to the 64. -/
def usizeOfI32 (n : Int) : Nat := (n % (2 : Int) ^ 64).toNat

/-- Embeds the total_len computation of run_inner in src/lib.rs: the sizes of
the filtered descriptors are each cast to usize and summed with the wrapping
machine addition of a 64-bit usize. -/
def total_len (files : List FileResource) : Nat :=
  files.foldl (fun acc f => (acc + usizeOfI32 f.size) % 2 ^ 64) 0

lemma foldl_wrap (m : Nat) (g : FileResource → Nat) :
    ∀ (l : List FileResource) (acc : Nat),
      List.foldl (fun a f => (a + g f) % m) acc l % m = (acc + (l.map g).sum) % m := by
  intro l
  induction l with
  | nil => intro acc; simp
  | cons f fs ih =>
    intro acc
    simp only [List.foldl_cons, List.map_cons, List.sum_cons]
    rw [ih, Nat.mod_add_mod, Nat.add_assoc]

lemma foldl_wrap_lt (m : Nat) (hm : 0 < m) (g : FileResource → Nat) :
    ∀ (l : List FileResource) (acc : Nat), acc < m →
      List.foldl (fun a f => (a + g f) % m) acc l < m := by
  intro l
  induction l with
  | nil => intro acc h; simpa using h
  | cons f fs ih => intro acc _; exact ih _ (Nat.mod_lt _ hm)

lemma usize_sum_cast (l : List FileResource) :
    (((l.map (fun f => usizeOfI32 f.size)).sum : Nat) : Int) =
      (l.map (fun f => f.size % (2 : Int) ^ 64)).sum := by
  induction l with
  | nil => simp
  | cons f fs ih =>
    simp only [List.map_cons, List.sum_cons, Nat.cast_add, ih]
    congr 1
    simp only [usizeOfI32]
    exact Int.toNat_of_nonneg (Int.emod_nonneg _ (by norm_num))

/-- C5: the filtering step keeps exactly the descriptors with a non-empty
url, preserving their relative order (the filtered list is a sublist of the
input); it is a total function, so it never fails. -/
theorem retainNonEmptyUrl_spec (files : List FileResource) :
    (∀ f ∈ retainNonEmptyUrl files, f.url ≠ "") ∧
    (∀ f ∈ files, f.url ≠ "" → f ∈ retainNonEmptyUrl files) ∧
    (retainNonEmptyUrl files).Sublist files := by
  refine ⟨?_, ?_, List.filter_sublist _⟩
  · intro f hf
    have h := List.of_mem_filter hf
    simpa using h
  · intro f hf hne
    exact List.mem_filter.mpr ⟨hf, by simpa using hne⟩

/-- C10: total_len is the wrapping 64-bit sum of the sizes reinterpreted as
usize, i.e. the mathematical sum of the size fields taken modulo 2 to the
64; when that mathematical sum is negative the reported value necessarily
differs from it.  No error is raised: total_len is a total function. -/
theorem total_len_wraps (files : List FileResource) (f : FileResource)
    (hf : f ∈ files) (hneg : f.size < 0) :
    total_len files = (((files.map FileResource.size).sum) % (2 : Int) ^ 64).toNat ∧
    ((files.map FileResource.size).sum < 0 →
      (total_len files : Int) ≠ (files.map FileResource.size).sum) := by
  have hm : (0 : Nat) < 2 ^ 64 := by positivity
  have hlt : total_len files < 2 ^ 64 := foldl_wrap_lt _ hm _ files 0 hm
  have h1 : total_len files = (files.map (fun f => usizeOfI32 f.size)).sum % 2 ^ 64 := by
    have h := foldl_wrap (2 ^ 64) (fun f => usizeOfI32 f.size) files 0
    have h0 : total_len files % 2 ^ 64 =
        (0 + (files.map (fun f => usizeOfI32 f.size)).sum) % 2 ^ 64 := h
    rw [Nat.mod_eq_of_lt hlt] at h0
    simpa using h0
  have h2 : ((files.map (fun f => usizeOfI32 f.size)).sum : Int) % (2 : Int) ^ 64 =
      ((files.map FileResource.size).sum) % (2 : Int) ^ 64 := by
    have hmm : files.map (fun f => f.size % (2 : Int) ^ 64) =
        (files.map FileResource.size).map (fun x => x % (2 : Int) ^ 64) := by
      rw [List.map_map]; rfl
    rw [usize_sum_cast, hmm, ← List.sum_int_mod]
  constructor
  · have hcast : ((total_len files : Nat) : Int) =
        ((files.map FileResource.size).sum) % (2 : Int) ^ 64 := by
      rw [h1, Int.natCast_mod]
      have hp : ((2 ^ 64 : Nat) : Int) = (2 : Int) ^ 64 := by norm_num
      rw [hp]
      exact h2
    omega
  · intro hS heq
    omega

/-- Sample descriptor with a negative size, used to witness the wrapping
behaviour of total_len. -/
def negSizeFile : FileResource :=
  { path := "b.bin", version := 1, size := -1, sum := "", url := "http://x/b" }

/-- Witness for C10 at the one-element manifest holding negSizeFile. -/
theorem total_len_wraps_witness :
    total_len [negSizeFile] = ((([negSizeFile].map FileResource.size).sum) % (2 : Int) ^ 64).toNat ∧
    (([negSizeFile].map FileResource.size).sum < 0 →
      (total_len [negSizeFile] : Int) ≠ ([negSizeFile].map FileResource.size).sum) :=
  total_len_wraps [negSizeFile] negSizeFile (List.mem_singleton.mpr rfl) (by decide)

/-- Environment of external capabilities seen by a Fetch Worker: the SHA-256
digest rendered as lower-case hex (format with x of Sha256.digest), the
filesystem read (tokio fs read, none for any failure), the HTTP GET composed
with error_for_status and body collection, recursive directory creation, and
the file write.  Byte buffers are lists of naturals. -/
structure FetchEnv where
  hashHex : List Nat → String
  readFile : String → Option (List Nat)
  httpGet : String → Except Error (List Nat)
  createDirAll : String → Except Error Unit
  writeFile : String → List Nat → Except Error Unit

/-- Record of the externally visible effects of one Fetch Worker: the GET
requests issued, the directories created, and the file writes attempted. -/
structure FetchLog where
  gets : List String
  dirs : List String
  writes : List (String × List Nat)
deriving DecidableEq, Repr

def FetchLog.empty : FetchLog := ⟨[], [], []⟩

/-- Embeds PathBuf.join of the Rust standard library for string paths: an
absolute right operand replaces the base, otherwise the two are joined with
a separator. -/
def pathJoin (base p : String) : String :=
  if p.startsWith "/" then p
  else if base.endsWith "/" then base ++ p
  else base ++ "/" ++ p

/-- Embeds Path.parent of the Rust standard library: the path without its
final component, none for the empty path or the root. -/
def parentPath (p : String) : Option String :=
  if p = "" then none
  else if p = "/" then none
  else some (String.intercalate "/" (p.splitOn "/").dropLast)

/-- Embeds the download tail of FileResource.fetch in src/lib.rs: GET the
url, create the parent directory of the destination, write the body, and
return Downloaded; the first failing step aborts the worker with its
error. -/
def fetchDownload (env : FetchEnv) (f : FileResource) (outputPath : String) :
    Except Error Status × FetchLog :=
  match env.httpGet f.url with
  | .error e => (.error e, ⟨[f.url], [], []⟩)
  | .ok bytes =>
    match parentPath outputPath with
    | some parent =>
      match env.createDirAll parent with
      | .error e => (.error e, ⟨[f.url], [parent], []⟩)
      | .ok _ =>
        match env.writeFile outputPath bytes with
        | .error e => (.error e, ⟨[f.url], [parent], [(outputPath, bytes)]⟩)
        | .ok _ => (.ok .Downloaded, ⟨[f.url], [parent], [(outputPath, bytes)]⟩)
    | none =>
      match env.writeFile outputPath bytes with
      | .error e => (.error e, ⟨[f.url], [], [(outputPath, bytes)]⟩)
      | .ok _ => (.ok .Downloaded, ⟨[f.url], [], [(outputPath, bytes)]⟩)

/-- Embeds FileResource.fetch of src/lib.rs: when the destination file is
readable and its digest equals the stored sum the worker returns Skipped
with no external effect; on a read failure or a digest mismatch it falls
through to the fresh download. -/
def FileResource.fetch (env : FetchEnv) (f : FileResource) (outputRoot : String) :
    Except Error Status × FetchLog :=
  match env.readFile (pathJoin outputRoot f.path) with
  | some content =>
    if env.hashHex content = f.sum then (.ok .Skipped, FetchLog.empty)
    else fetchDownload env f (pathJoin outputRoot f.path)
  | none => fetchDownload env f (pathJoin outputRoot f.path)

/-- C3: a destination file that is readable and whose digest matches the
stored sum makes the worker return Skipped with no GET issued, no directory
created and no write attempted. -/
theorem fetch_cache_hit (env : FetchEnv) (f : FileResource) (root : String)
    (content : List Nat)
    (hread : env.readFile (pathJoin root f.path) = some content)
    (hhash : env.hashHex content = f.sum) :
    FileResource.fetch env f root = (.ok Status.Skipped, FetchLog.empty) ∧
    (FileResource.fetch env f root).2.gets = [] ∧
    (FileResource.fetch env f root).2.writes = [] := by
  have h : FileResource.fetch env f root = (.ok Status.Skipped, FetchLog.empty) := by
    unfold FileResource.fetch
    rw [hread]
    simp [hhash]
  refine ⟨h, ?_, ?_⟩ <;> rw [h] <;> rfl

/-- Environment for the cache-hit witness: the destination is readable and
hashes to the stored sum; the network is down, so any GET would fail. -/
def hitEnv : FetchEnv where
  hashHex := fun _ => "cafe"
  readFile := fun _ => some [1, 2]
  httpGet := fun _ => .error (.Reqwest "down")
  createDirAll := fun _ => .ok ()
  writeFile := fun _ _ => .ok ()

def hitFile : FileResource :=
  { path := "a.txt", version := 1, size := 10, sum := "cafe", url := "http://x/a" }

/-- Witness for C3 at a concrete environment and descriptor. -/
theorem fetch_cache_hit_witness :
    FileResource.fetch hitEnv hitFile "out" = (.ok Status.Skipped, FetchLog.empty) ∧
    (FileResource.fetch hitEnv hitFile "out").2.gets = [] ∧
    (FileResource.fetch hitEnv hitFile "out").2.writes = [] :=
  fetch_cache_hit hitEnv hitFile "out" [1, 2] rfl rfl

/-- C4: when the destination is unreadable (the read failure is swallowed and
treated as a cache miss) or its digest mismatches the stored sum, the worker
behaves exactly as the fresh download: it issues one GET of the url, and a
transport failure or non-success status of that GET is returned as the
error of the worker. -/
theorem fetch_cache_miss (env : FetchEnv) (f : FileResource) (root : String)
    (h : env.readFile (pathJoin root f.path) = none ∨
      ∃ content, env.readFile (pathJoin root f.path) = some content ∧
        env.hashHex content ≠ f.sum) :
    FileResource.fetch env f root = fetchDownload env f (pathJoin root f.path) ∧
    (FileResource.fetch env f root).2.gets = [f.url] ∧
    (∀ e, env.httpGet f.url = .error e →
      (FileResource.fetch env f root).1 = .error e) := by
  have hd : FileResource.fetch env f root = fetchDownload env f (pathJoin root f.path) := by
    unfold FileResource.fetch
    rcases h with hnone | ⟨content, hsome, hne⟩
    · rw [hnone]
    · rw [hsome]
      simp [hne]
  have hgets : (fetchDownload env f (pathJoin root f.path)).2.gets = [f.url] := by
    unfold fetchDownload
    split <;> (try split) <;> (try split) <;> (try split) <;> rfl
  refine ⟨hd, by rw [hd]; exact hgets, ?_⟩
  intro e hget
  rw [hd]
  unfold fetchDownload
  rw [hget]

/-- Environment for the cache-miss witness: the checksum of the descriptor is
the empty string while the digest render always has 64 characters, so no
local content can match and a fresh download is always attempted. -/
def missEnv : FetchEnv where
  hashHex := fun _ => String.mk (List.replicate 64 'e')
  readFile := fun _ => some [3]
  httpGet := fun _ => .error (.Reqwest "boom")
  createDirAll := fun _ => .ok ()
  writeFile := fun _ _ => .ok ()

def missFile : FileResource :=
  { path := "c.dat", version := 0, size := 0, sum := "", url := "http://x/c" }

/-- Witness for C4: the empty-checksum descriptor downloads afresh and the
transport failure of the GET surfaces as the worker error. -/
theorem fetch_cache_miss_witness :
    FileResource.fetch missEnv missFile "out" =
      fetchDownload missEnv missFile (pathJoin "out" missFile.path) ∧
    (FileResource.fetch missEnv missFile "out").2.gets = [missFile.url] ∧
    (∀ e, missEnv.httpGet missFile.url = .error e →
      (FileResource.fetch missEnv missFile "out").1 = .error e) :=
  fetch_cache_miss missEnv missFile "out"
    (Or.inr ⟨[3], rfl, by decide⟩)

/-- Resolution of the select race inside a spawned task in run_inner of
src/lib.rs: either the cancellation signal is observed first, or the fetch
future completes first with its result. -/
inductive RaceOutcome where
  | cancelledFirst : RaceOutcome
  | fetchFirst : Except Error Status → RaceOutcome

/-- Ordered events produced by one spawned task: raising the run-wide
cancellation signal, invoking the Reporter, and finishing with the value the
join handle will observe. -/
inductive WEvent where
  | cancelRaise : WEvent
  | reportCall (file : FileResource) (status : Status) (totalFiles totalBytes : Nat) : WEvent
  | finish (result : Except Error Unit) : WEvent

structure WorkerOut where
  result : Except Error Unit
  reports : List (FileResource × Status × Nat × Nat)
  events : List WEvent

/-- Embeds the tail of a spawned task in run_inner of src/lib.rs once a
status is known: when a reporter is configured it is invoked once with the
descriptor, the status and the run totals, and the task returns Ok. -/
def workerFinish (hasReporter : Bool) (file : FileResource) (status : Status)
    (total totalLen : Nat) : WorkerOut :=
  if hasReporter then
    { result := .ok (), reports := [(file, status, total, totalLen)],
      events := [.reportCall file status total totalLen, .finish (.ok ())] }
  else
    { result := .ok (), reports := [], events := [.finish (.ok ())] }

/-- Embeds the body of a spawned task in run_inner of src/lib.rs: the select
race of the cancellation signal against the fetch.  A fetch error raises the
run-wide cancellation signal and then surfaces the error as the task result,
with no Reporter call; a cancellation win yields status Cancelled and a fetch
win its status, and either is reported. -/
def workerTask (hasReporter : Bool) (file : FileResource) (race : RaceOutcome)
    (total totalLen : Nat) : WorkerOut :=
  match race with
  | .fetchFirst (.error e) =>
    { result := .error e, reports := [], events := [.cancelRaise, .finish (.error e)] }
  | .cancelledFirst => workerFinish hasReporter file Status.Cancelled total totalLen
  | .fetchFirst (.ok s) => workerFinish hasReporter file s total totalLen

/-- Embeds the await loop of run_inner in src/lib.rs: the started join
handles are awaited in start order; a join failure is wrapped as
InternalError, a task error is returned as is, and the loop stops at the
first error.  The second component counts how many handles were awaited. -/
def awaitHandles : List (Except String (Except Error Unit)) → Except Error Unit × Nat
  | [] => (.ok (), 0)
  | h :: hs =>
    match h with
    | .error msg => (.error (.InternalError msg), 1)
    | .ok (.error e) => (.error e, 1)
    | .ok (.ok _) =>
      let r := awaitHandles hs
      (r.1, r.2 + 1)

/-- Sample descriptor used by concrete counterexamples and witnesses. -/
def sampleFile : FileResource :=
  { path := "s.txt", version := 2, size := 7, sum := "ab", url := "http://x/s" }

/-- C1 counterexample: a worker whose race was won by the cancellation
signal, with a reporter configured, does invoke the Reporter, and it does so
with outcome Cancelled; the claim that a Cancelled outcome makes no Reporter
call is false on the code. -/
theorem cancelled_outcome_is_reported_cex :
    (workerTask true sampleFile RaceOutcome.cancelledFirst 2 5).reports =
      [(sampleFile, Status.Cancelled, 2, 5)] ∧
    (workerTask true sampleFile RaceOutcome.cancelledFirst 2 5).reports ≠ [] := by
  constructor
  · rfl
  · decide

/-- C1 amended: with a reporter configured, a spawned worker invokes the
Reporter exactly once, with the descriptor, the produced outcome and the run
totals, exactly when its outcome is non-error, Cancelled included; a worker
whose fetch errored makes no Reporter call. -/
theorem report_iff_non_error (f : FileResource) (t b : Nat) :
    ((workerTask true f RaceOutcome.cancelledFirst t b).reports =
      [(f, Status.Cancelled, t, b)]) ∧
    (∀ s, (workerTask true f (RaceOutcome.fetchFirst (.ok s)) t b).reports =
      [(f, s, t, b)]) ∧
    (∀ hasReporter e,
      (workerTask hasReporter f (RaceOutcome.fetchFirst (.error e)) t b).reports = []) := by
  refine ⟨rfl, fun s => rfl, fun hasReporter e => rfl⟩

/-- C2: a worker whose fetch completed with an error raises the run-wide
cancellation signal before finishing with that error (its ordered event
trace is exactly cancelRaise then finish), and the await loop over the
started handles returns the first error in start order, stopping right
there: with every earlier handle successful, the result is that error and
exactly the earlier handles plus the failing one were awaited, whatever
comes after. -/
theorem error_cancels_then_first_error_wins (hasReporter : Bool) (f : FileResource)
    (e : Error) (t b : Nat) (pre post : List (Except String (Except Error Unit)))
    (hpre : ∀ x ∈ pre, x = Except.ok (Except.ok ())) :
    (workerTask hasReporter f (RaceOutcome.fetchFirst (.error e)) t b).events =
      [.cancelRaise, .finish (.error e)] ∧
    (workerTask hasReporter f (RaceOutcome.fetchFirst (.error e)) t b).result = .error e ∧
    awaitHandles (pre ++ Except.ok (Except.error e) :: post) = (.error e, pre.length + 1) := by
  refine ⟨rfl, rfl, ?_⟩
  induction pre with
  | nil => rfl
  | cons x xs ih =>
    have hx : x = Except.ok (Except.ok ()) := hpre x (List.mem_cons_self x xs)
    have hxs : ∀ y ∈ xs, y = Except.ok (Except.ok ()) :=
      fun y hy => hpre y (List.mem_cons_of_mem x hy)
    subst hx
    simp only [List.cons_append, awaitHandles, List.append_eq, ih hxs, List.length_cons]

/-- Witness for C2: one successful handle precedes the failing one and one
pending handle follows it. -/
theorem error_cancels_then_first_error_wins_witness :
    (workerTask true sampleFile (RaceOutcome.fetchFirst (.error (.Reqwest "boom"))) 1 0).events =
      [.cancelRaise, .finish (.error (.Reqwest "boom"))] ∧
    (workerTask true sampleFile (RaceOutcome.fetchFirst (.error (.Reqwest "boom"))) 1 0).result =
      .error (.Reqwest "boom") ∧
    awaitHandles ([Except.ok (Except.ok ())] ++
        Except.ok (Except.error (.Reqwest "boom")) :: [Except.ok (Except.error (.Io "later"))]) =
      (.error (.Reqwest "boom"), 2) :=
  error_cancels_then_first_error_wins true sampleFile (.Reqwest "boom") 1 0
    [Except.ok (Except.ok ())] [Except.ok (Except.error (.Io "later"))]
    (by intro x hx; simpa using hx)

/-- Embeds the admission loop of run_inner in src/lib.rs from a given index:
for each descriptor the select race of the cancellation signal against the
semaphore acquisition is resolved by the oracle admitCancelled; when
cancellation wins, the loop breaks and no further descriptor is started. -/
def fanOutFrom (admitCancelled : Nat → Bool) : Nat → List FileResource → List FileResource
  | _, [] => []
  | i, f :: fs => if admitCancelled i then [] else f :: fanOutFrom admitCancelled (i + 1) fs

/-- The descriptors actually started by the admission loop, in order. -/
def fanOut (admitCancelled : Nat → Bool) (files : List FileResource) : List FileResource :=
  fanOutFrom admitCancelled 0 files

lemma fanOutFrom_take (admitCancelled : Nat → Bool) :
    ∀ (files : List FileResource) (k n : Nat),
      (∀ j, j < n → admitCancelled (k + j) = false) → admitCancelled (k + n) = true →
      fanOutFrom admitCancelled k files = files.take n := by
  intro files
  induction files with
  | nil => intro k n _ _; simp [fanOutFrom]
  | cons f fs ih =>
    intro k n h hn
    cases n with
    | zero =>
      have h0 : admitCancelled k = true := by simpa using hn
      simp [fanOutFrom, h0]
    | succ m =>
      have h0 : admitCancelled k = false := by simpa using h 0 (Nat.succ_pos m)
      have harg : ∀ j, j < m → admitCancelled (k + 1 + j) = false := by
        intro j hj
        have hk : k + 1 + j = k + (j + 1) := by omega
        rw [hk]
        exact h (j + 1) (Nat.succ_lt_succ hj)
      have hn2 : admitCancelled (k + 1 + m) = true := by
        have hk : k + 1 + m = k + (m + 1) := by omega
        rw [hk]; exact hn
      simp [fanOutFrom, h0, ih (k + 1) m harg hn2]

/-- C8: if the cancellation signal wins the admission race at index i and
had not won before, the run starts exactly the first i descriptors; every
later descriptor is dropped and never admitted. -/
theorem cancellation_truncates_fanout (admitCancelled : Nat → Bool)
    (files : List FileResource) (i : Nat)
    (hi : admitCancelled i = true) (hbefore : ∀ j, j < i → admitCancelled j = false) :
    fanOut admitCancelled files = files.take i ∧
    (fanOut admitCancelled files).length ≤ i := by
  have h : fanOut admitCancelled files = files.take i :=
    fanOutFrom_take admitCancelled files 0 i (by simpa using hbefore) (by simpa using hi)
  exact ⟨h, by rw [h]; exact (files.length_take_le i)⟩

/-- Witness for C8: cancellation wins at index 2 of a four-element manifest,
so exactly the first two descriptors start. -/
theorem cancellation_truncates_fanout_witness :
    fanOut (fun n => n == 2) [sampleFile, sampleFile, sampleFile, sampleFile] =
      [sampleFile, sampleFile, sampleFile, sampleFile].take 2 ∧
    (fanOut (fun n => n == 2) [sampleFile, sampleFile, sampleFile, sampleFile]).length ≤ 2 :=
  cancellation_truncates_fanout (fun n => n == 2)
    [sampleFile, sampleFile, sampleFile, sampleFile] 2 rfl (by decide)

/-- State of the counting admission gate, embedding tokio Semaphore as used
in run_inner of src/lib.rs: available permits and permits currently held by
spawned workers. -/
structure SemState where
  available : Nat
  held : Nat
deriving DecidableEq, Repr

/-- Embeds Semaphore.new(self.concurrency): all permits available, none
held. -/
def semNew (limit : Nat) : SemState := ⟨limit, 0⟩

inductive SemEvent where
  | acquireSlot : SemEvent
  | releaseSlot : SemEvent
deriving DecidableEq, Repr

/-- One transition of the gate: acquire_owned takes one permit and blocks
(no transition) when none is available; dropping the permit at the end of a
task returns it. -/
def semStep (s : SemState) : SemEvent → Option SemState
  | .acquireSlot =>
    if s.available = 0 then none else some ⟨s.available - 1, s.held + 1⟩
  | .releaseSlot =>
    if s.held = 0 then none else some ⟨s.available + 1, s.held - 1⟩

/-- Run of the gate over a sequence of acquire and release events; none when
some event was impossible. -/
def semRun (s : SemState) : List SemEvent → Option SemState
  | [] => some s
  | e :: es =>
    match semStep s e with
    | none => none
    | some s2 => semRun s2 es

lemma semRun_conserves :
    ∀ (trace : List SemEvent) (s s2 : SemState), semRun s trace = some s2 →
      s2.available + s2.held = s.available + s.held := by
  intro trace
  induction trace with
  | nil => intro s s2 h; cases h; rfl
  | cons e es ih =>
    intro s s2 h
    cases e <;> simp only [semRun, semStep] at h
    · rcases hav : s.available with _ | n
      · rw [hav] at h; simp at h
      · rw [hav] at h
        simp only [Nat.succ_ne_zero, if_false] at h
        have := ih _ _ h
        simp only [this]
        omega
    · rcases hh : s.held with _ | n
      · rw [hh] at h; simp at h
      · rw [hh] at h
        simp only [Nat.succ_ne_zero, if_false] at h
        have := ih _ _ h
        simp only [this]
        omega

/-- C9: the counting gate is created with the configured concurrency limit,
and along any sequence of single-permit acquisitions and releases the number
of simultaneously held admission slots never exceeds that limit. -/
theorem concurrency_bound (concurrency : Nat) (trace : List SemEvent) (s : SemState)
    (h : semRun (semNew concurrency) trace = some s) :
    s.held ≤ concurrency := by
  have hc := semRun_conserves trace (semNew concurrency) s h
  simp only [semNew] at hc
  omega

/-- Witness for C9: two acquisitions and one release under limit 2 leave one
slot held, within the bound. -/
theorem concurrency_bound_witness :
    (SemState.mk 1 1).held ≤ 2 :=
  concurrency_bound 2 [SemEvent.acquireSlot, SemEvent.acquireSlot, SemEvent.releaseSlot]
    ⟨1, 1⟩ (by decide)

/-- Environment for the manifest decode stage: kbinxml from_binary (the
decoded nodes are kept opaque as a byte list), kbinxml to_text_xml, and the
quick_xml text deserialization. -/
structure DecodeEnv where
  fromBinary : List Nat → Except String (List Nat)
  toTextXml : List Nat → Except String (List Nat)
  parseXml : List Nat → Except String ResourceInfo

/-- Optional serde fields of one manifest entry before defaulting, embedding
the serde(default) attributes on every field of FileResource in
src/resources.rs. -/
structure RawFileResource where
  path : Option String
  version : Option Int
  size : Option Int
  sum : Option String
  url : Option String

/-- Embeds the serde defaulting declared in src/resources.rs: a missing or
unknown field becomes the empty string or zero. -/
def FileResource.ofRaw (r : RawFileResource) : FileResource :=
  { path := r.path.getD "", version := r.version.getD 0, size := r.size.getD 0,
    sum := r.sum.getD "", url := r.url.getD "" }

/-- Embeds the manifest decode block of run_inner in src/lib.rs: try the
binary format first; on success convert the nodes to text xml (a conversion
failure is ConvertResourceInfo) and retain the raw body for the snapshot; on
any binary failure use the body itself as the text and retain nothing.  The
text is then deserialized (a failure is ParseResourceInfo) and the entries
with an empty url are removed. -/
def decodeResourceInfo (env : DecodeEnv) (body : List Nat) :
    Except Error (ResourceInfo × Option (List Nat)) :=
  match
    (match env.fromBinary body with
     | .ok nodes =>
       match env.toTextXml nodes with
       | .ok xml => Except.ok (xml, some body)
       | .error err => Except.error (Error.ConvertResourceInfo err)
     | .error _ => Except.ok (body, none) :
      Except Error (List Nat × Option (List Nat)))
  with
  | .error e => .error e
  | .ok (xml, riBin) =>
    match env.parseXml xml with
    | .error err => .error (.ParseResourceInfo err)
    | .ok ri => .ok ({ files := retainNonEmptyUrl ri.files }, riBin)

/-- Externally visible outcome of one run of run_inner: its result, the file
GET requests issued, the file writes attempted, the Reporter invocations,
and the snapshot write if any. -/
structure RunOut where
  result : Except Error Unit
  fileGets : List String
  fileWrites : List (String × List Nat)
  reports : List (FileResource × Status × Nat × Nat)
  snapshot : Option (String × List Nat)

/-- Resolution of the in-task select race for the worker of index i, driven
by the oracle raceCancelled, together with the effect log of the fetch when
it ran. -/
def workerRace (fenv : FetchEnv) (raceCancelled : Nat → Bool) (root : String)
    (i : Nat) (f : FileResource) : RaceOutcome × FetchLog :=
  if raceCancelled i then (.cancelledFirst, FetchLog.empty)
  else
    ((RaceOutcome.fetchFirst (FileResource.fetch fenv f root).1),
      (FileResource.fetch fenv f root).2)

/-- The spawned tasks of one run: one workerTask per started descriptor, in
start order, all closing over the same run totals. -/
def runUnits (fenv : FetchEnv) (raceCancelled : Nat → Bool) (root : String)
    (hasReporter : Bool) (total totalLen : Nat) (started : List FileResource) :
    List (WorkerOut × FetchLog) :=
  started.enum.map (fun p =>
    (workerTask hasReporter p.2 (workerRace fenv raceCancelled root p.1 p.2).1
      total totalLen, (workerRace fenv raceCancelled root p.1 p.2).2))

/-- The await loop of the run applied to the spawned tasks, joined without a
panic. -/
def unitsResult (units : List (WorkerOut × FetchLog)) : Except Error Unit × Nat :=
  awaitHandles (units.map (fun u => Except.ok u.1.result))

/-- Specification shorthand: the snapshot write the design requires, given
the retained raw bytes and the outcome of awaiting the workers. -/
def snapshotSpec (riBin : Option (List Nat)) (awaitRes : Except Error Unit)
    (root : String) : Option (String × List Nat) :=
  match riBin, awaitRes with
  | some bin, .ok _ => some (pathJoin root "ri.bin", bin)
  | _, _ => none

/-- Embeds run_inner of src/lib.rs end to end: fetch the manifest body,
decode and filter it, compute the totals, run the admission loop, spawn the
workers, await them in start order, and on overall success write the
retained binary snapshot to the fixed name ri.bin under the output root. -/
def runInnerModel (denv : DecodeEnv) (fenv : FetchEnv)
    (bodyResult : Except Error (List Nat)) (admitCancelled raceCancelled : Nat → Bool)
    (root : String) (hasReporter : Bool) : RunOut :=
  match bodyResult with
  | .error e => ⟨.error e, [], [], [], none⟩
  | .ok body =>
    match decodeResourceInfo denv body with
    | .error e => ⟨.error e, [], [], [], none⟩
    | .ok (ri, riBin) =>
      let started := fanOut admitCancelled ri.files
      let units := runUnits fenv raceCancelled root hasReporter
        ri.files.length (total_len ri.files) started
      let gets := (units.map (fun u => u.2.gets)).flatten
      let writes := (units.map (fun u => u.2.writes)).flatten
      let reports := (units.map (fun u => u.1.reports)).flatten
      match (unitsResult units).1 with
      | .error e => ⟨.error e, gets, writes, reports, none⟩
      | .ok _ =>
        match riBin with
        | none => ⟨.ok (), gets, writes, reports, none⟩
        | some bin =>
          match fenv.writeFile (pathJoin root "ri.bin") bin with
          | .error e => ⟨.error e, gets, writes, reports, some (pathJoin root "ri.bin", bin)⟩
          | .ok _ => ⟨.ok (), gets, writes, reports, some (pathJoin root "ri.bin", bin)⟩

/-- C6: manifest decoding tries the binary format first; on binary success
the converted text is parsed and the raw body is retained for snapshotting,
on binary failure the body itself is parsed as text and nothing is retained;
missing serde fields default to the empty string or zero; and a failure of
the text stage aborts the whole run with no fetch, no write, no report and
no snapshot. -/
theorem decode_binary_first_text_fallback :
    (∀ (env : DecodeEnv) (body nodes xml : List Nat),
      env.fromBinary body = .ok nodes → env.toTextXml nodes = .ok xml →
      decodeResourceInfo env body =
        (match env.parseXml xml with
         | .error err => .error (.ParseResourceInfo err)
         | .ok ri => .ok ({ files := retainNonEmptyUrl ri.files }, some body))) ∧
    (∀ (env : DecodeEnv) (body : List Nat) (err : String),
      env.fromBinary body = .error err →
      decodeResourceInfo env body =
        (match env.parseXml body with
         | .error err2 => .error (.ParseResourceInfo err2)
         | .ok ri => .ok ({ files := retainNonEmptyUrl ri.files }, none))) ∧
    (FileResource.ofRaw ⟨none, none, none, none, none⟩ =
      { path := "", version := 0, size := 0, sum := "", url := "" }) ∧
    (∀ (denv : DecodeEnv) (fenv : FetchEnv) (body : List Nat)
      (admitCancelled raceCancelled : Nat → Bool) (root : String) (hasReporter : Bool)
      (e : Error), decodeResourceInfo denv body = .error e →
      runInnerModel denv fenv (.ok body) admitCancelled raceCancelled root hasReporter =
        ⟨.error e, [], [], [], none⟩) := by
  refine ⟨?_, ?_, rfl, ?_⟩
  · intro env body nodes xml hbin htext
    unfold decodeResourceInfo
    simp only [hbin, htext]
  · intro env body err hbin
    unfold decodeResourceInfo
    simp only [hbin]
  · intro denv fenv body admitCancelled raceCancelled root hasReporter e hdec
    unfold runInnerModel
    simp only [hdec]

/-- C7: given the decoded manifest and the retained bytes, the run writes a
snapshot exactly when every awaited worker succeeded and the binary path
retained the raw body, the snapshot target being the fixed name ri.bin under
the output root and its bytes being exactly the manifest body; a failed run
or a text manifest writes none.  The retained bytes can only be the original
body. -/
theorem snapshot_iff_success_and_binary (denv : DecodeEnv) (fenv : FetchEnv)
    (body : List Nat) (admitCancelled raceCancelled : Nat → Bool) (root : String)
    (hasReporter : Bool) (ri : ResourceInfo) (riBin : Option (List Nat))
    (hdec : decodeResourceInfo denv body = .ok (ri, riBin)) :
    (riBin = none ∨ riBin = some body) ∧
    (runInnerModel denv fenv (.ok body) admitCancelled raceCancelled root
        hasReporter).snapshot =
      snapshotSpec riBin
        (unitsResult (runUnits fenv raceCancelled root hasReporter
          ri.files.length (total_len ri.files) (fanOut admitCancelled ri.files))).1
        root := by
  constructor
  · unfold decodeResourceInfo at hdec
    rcases hbin : denv.fromBinary body with err | nodes
    · simp only [hbin] at hdec
      rcases hp : denv.parseXml body with err2 | ri2
      · simp [hp] at hdec
      · simp only [hp, Except.ok.injEq, Prod.mk.injEq] at hdec
        exact Or.inl hdec.2.symm
    · simp only [hbin] at hdec
      rcases ht : denv.toTextXml nodes with err | xml
      · simp [ht] at hdec
      · simp only [ht] at hdec
        rcases hp : denv.parseXml xml with err2 | ri2
        · simp [hp] at hdec
        · simp only [hp, Except.ok.injEq, Prod.mk.injEq] at hdec
          exact Or.inr hdec.2.symm
  · unfold runInnerModel
    simp only [hdec]
    rcases hav : (unitsResult (runUnits fenv raceCancelled root hasReporter
        ri.files.length (total_len ri.files) (fanOut admitCancelled ri.files))).1
        with e | u
    · simp only [hav, snapshotSpec]
    · simp only [hav, snapshotSpec]
      rcases riBin with _ | bin
      · rfl
      · rcases hw : fenv.writeFile (pathJoin root "ri.bin") bin with e | u2 <;>
          simp only [hw]

/-- Decode environment for the snapshot witness: the binary decode and the
conversion succeed and the text parses to the empty manifest. -/
def binOkEnv : DecodeEnv where
  fromBinary := fun b => .ok b
  toTextXml := fun _ => .ok [9]
  parseXml := fun _ => .ok ⟨[]⟩

/-- Fetch environment for the snapshot witness: every capability succeeds. -/
def okFetchEnv : FetchEnv where
  hashHex := fun _ => "aa"
  readFile := fun _ => none
  httpGet := fun _ => .ok [0]
  createDirAll := fun _ => .ok ()
  writeFile := fun _ _ => .ok ()

/-- Witness for C7: an empty binary manifest runs with no worker and writes
the snapshot of its original body. -/
theorem snapshot_iff_success_and_binary_witness :
    (some [7] = none ∨ (some [7] : Option (List Nat)) = some [7]) ∧
    (runInnerModel binOkEnv okFetchEnv (.ok [7]) (fun _ => false) (fun _ => false)
        "out" true).snapshot =
      snapshotSpec (some [7])
        (unitsResult (runUnits okFetchEnv (fun _ => false) "out" true
          (ResourceInfo.mk []).files.length (total_len (ResourceInfo.mk []).files)
          (fanOut (fun _ => false) (ResourceInfo.mk []).files))).1
        "out" :=
  snapshot_iff_success_and_binary binOkEnv okFetchEnv [7] (fun _ => false)
    (fun _ => false) "out" true ⟨[]⟩ (some [7]) rfl

end Konaste
